import Mathlib

/-!
Verification development for the ExpectRust expect engine.

Shallow embedding of the core components of the repository:
* `src/buffer/ansi.rs` (`strip_ansi`),
* `src/buffer/mod.rs` (`BufferManager`),
* `src/pattern/matcher.rs` (`ExactMatcher`, `RegexMatcher`, `GlobMatcher`,
  `NullMatcher`),
* `src/pattern/mod.rs` (`Pattern`, `Pattern::to_matcher`),
* `src/session/mod.rs` (`Session::expect_any`).

Bytes are modelled as `Nat` (a `u8` value is `< 256`; theorems that depend on
this carry it as a hypothesis).  Rust strings are modelled as their UTF-8 byte
lists.  Rust slice-index panics are modelled by `Option`/`Except` error
results.  Loops are modelled with an explicit fuel argument whenever the
source loop's iteration count is bounded by the input size; in each case a
comment justifies that the chosen fuel is large enough, so the fueled
function agrees with the source loop.
-/

namespace ExpectRust

/-! ### ANSI stripper (`src/buffer/ansi.rs`) -/

/-- `u8::is_ascii_alphabetic`. -/
def isAsciiAlpha (b : Nat) : Bool :=
  (65 ≤ b && b ≤ 90) || (97 ≤ b && b ≤ 122)

/-- The CSI branch of `strip_ansi`: after `ESC [`, skip bytes until (and
including) the first ASCII-alphabetic byte; if none remains, consume
everything.  Returns the unconsumed suffix. -/
def skipCsi : List Nat → List Nat
  | [] => []
  | ch :: rest => if isAsciiAlpha ch then rest else skipCsi rest

/-- The OSC branch of `strip_ansi`: after `ESC ]`, skip bytes until (and
including) a BEL (`0x07`), or an `ESC \` pair; a final lone `ESC` is
consumed like an ordinary byte.  Returns the unconsumed suffix. -/
def skipOsc : List Nat → List Nat
  | [] => []
  | b :: rest =>
    if b = 7 then rest
    else if b = 27 ∧ rest.head? = some 92 then rest.tail
    else skipOsc rest

/-- Body of `strip_ansi`, with an explicit fuel bounding the number of loop
iterations.  Every iteration of the source's `while` loop advances the index
`i` by at least one, so `data.length` iterations always suffice and
`stripAnsiAux data.length data` computes exactly what the source loop does. -/
def stripAnsiAux : Nat → List Nat → List Nat
  | 0, _ => []
  | _ + 1, [] => []
  | _ + 1, [b] => [b]
  | fuel + 1, b :: c :: rest =>
    if b = 27 then
      if c = 91 then stripAnsiAux fuel (skipCsi rest)
      else if c = 93 then stripAnsiAux fuel (skipOsc rest)
      else if c = 40 ∨ c = 41 then
        match rest with
        | [] => []
        | _ :: rest2 => stripAnsiAux fuel rest2
      else stripAnsiAux fuel rest
    else b :: stripAnsiAux fuel (c :: rest)

/-- `strip_ansi` from `src/buffer/ansi.rs`. -/
def strip_ansi (data : List Nat) : List Nat :=
  stripAnsiAux data.length data

/-! ### Buffer manager (`src/buffer/mod.rs`) -/

/-- `BufferManager`.  The `strip` field is the source's `strip_ansi` flag
(renamed so that it does not shadow the function `strip_ansi`). -/
structure BufferManager where
  buffer : List Nat
  matched_position : Nat
  max_size : Nat
  strip : Bool
deriving DecidableEq, Repr

/-- `BufferManager::new` (the initial buffer is empty; capacity is not
observable). -/
def BufferManager.new (max_size : Nat) (strip : Bool) : BufferManager :=
  ⟨[], 0, max_size, strip⟩

/-- `BufferManager::compact`, pure part.  `DISCARD_RATIO = 3`, so the
source's `discard_amount` is `max_size / 3` and its `keep_from` is
`max (max_size / 3) matched_position` (written out below).
`copy_within(keep_from.., 0)` followed by `truncate(len - keep_from)` is
`List.drop keep_from`; `saturating_sub` is truncated `Nat` subtraction. -/
def BufferManager.compact (bm : BufferManager) : BufferManager :=
  if 0 < max (bm.max_size / 3) bm.matched_position ∧
      max (bm.max_size / 3) bm.matched_position < bm.buffer.length then
    { bm with
      buffer := bm.buffer.drop (max (bm.max_size / 3) bm.matched_position),
      matched_position :=
        bm.matched_position - max (bm.max_size / 3) bm.matched_position }
  else if bm.buffer.length ≤ max (bm.max_size / 3) bm.matched_position then
    { bm with buffer := [], matched_position := 0 }
  else bm

/-- `BufferManager::compact` with its `io::Result` return type: the source
function ends in `Ok(())` on every path, which the embedding records by
wrapping the pure result in `.ok`. -/
def BufferManager.compactR (bm : BufferManager) : Except Unit BufferManager :=
  .ok bm.compact

/-- `BufferManager::append` with its `io::Result` return type.  The only
fallible call is `compact`, whose result is propagated with `?`. -/
def BufferManager.appendR (bm : BufferManager) (data : List Nat) :
    Except Unit BufferManager :=
  (if bm.max_size <
      bm.buffer.length + (if bm.strip then strip_ansi data else data).length
      then bm.compactR else .ok bm).bind
    fun bm1 =>
      .ok { bm1 with
        buffer := bm1.buffer ++ (if bm.strip then strip_ansi data else data) }

/-- The pure value computed by `BufferManager::append`. -/
def BufferManager.append (bm : BufferManager) (data : List Nat) :
    BufferManager :=
  { (if bm.max_size <
        bm.buffer.length + (if bm.strip then strip_ansi data else data).length
        then bm.compact else bm) with
    buffer :=
      (if bm.max_size <
          bm.buffer.length + (if bm.strip then strip_ansi data else data).length
          then bm.compact else bm).buffer ++
        (if bm.strip then strip_ansi data else data) }

/-- `BufferManager::len`. -/
def BufferManager.len (bm : BufferManager) : Nat :=
  bm.buffer.length

/-- `BufferManager::unmatched`: `&buffer[matched_position..]`.  Rust range
slicing panics when the start index exceeds the length; the panic is
modelled as `none`. -/
def BufferManager.unmatched? (bm : BufferManager) : Option (List Nat) :=
  if bm.matched_position ≤ bm.buffer.length then
    some (bm.buffer.drop bm.matched_position)
  else none

/-- `BufferManager::mark_matched` (no clamping in the source). -/
def BufferManager.mark_matched (bm : BufferManager) (end_position : Nat) :
    BufferManager :=
  { bm with matched_position := end_position }

/-- `BufferManager::before`: `&buffer[..position.min(len)]`. -/
def BufferManager.before (bm : BufferManager) (position : Nat) : List Nat :=
  bm.buffer.take (min position bm.buffer.length)

/-- The invariant stated by the spec for the buffer manager: the matched
boundary never exceeds the buffer length. -/
def boundaryInv (bm : BufferManager) : Prop :=
  bm.matched_position ≤ bm.buffer.length

instance (bm : BufferManager) : Decidable (boundaryInv bm) := by
  unfold boundaryInv; infer_instance

/-! ### Byte-slice extraction and substring occurrence -/

/-- The Rust slice `&l[s..s+n]` (total version; the callers below check
bounds separately where the source can panic). -/
def listExtract (l : List Nat) (s n : Nat) : List Nat :=
  (l.drop s).take n

/-- The pattern `p` occurs in `l` at start offset `s`. -/
def occursAt (p l : List Nat) (s : Nat) : Prop :=
  s + p.length ≤ l.length ∧ listExtract l s p.length = p

instance (p l : List Nat) (s : Nat) : Decidable (occursAt p l s) := by
  unfold occursAt; infer_instance

/-! ### UTF-8 (semantics of `std::str::from_utf8` / `from_utf8_lossy`)

A decoded string is represented as the list of its characters, each
character being its list of UTF-8 bytes. -/

/-- A plain continuation byte (`0x80..=0xBF`). -/
def utf8Cont (b : Nat) : Bool :=
  128 ≤ b && b ≤ 191

/-- The allowed range of the first continuation byte after lead byte `b`
(RFC 3629 / the table used by Rust's UTF-8 validation). -/
def utf8FirstCont (b c : Nat) : Bool :=
  if b = 224 then 160 ≤ c && c ≤ 191
  else if b = 237 then 128 ≤ c && c ≤ 159
  else if b = 240 then 144 ≤ c && c ≤ 191
  else if b = 244 then 128 ≤ c && c ≤ 143
  else utf8Cont c

/-- Decode one UTF-8 character at the head of the byte list: returns the
character's bytes and the remaining bytes, or `none` if no valid character
starts here (invalid lead byte, continuation out of range, or truncation). -/
def utf8Step : List Nat → Option (List Nat × List Nat)
  | [] => none
  | b :: rest =>
    if b ≤ 127 then some ([b], rest)
    else if 194 ≤ b && b ≤ 223 then
      match rest with
      | c1 :: rest1 => if utf8FirstCont b c1 then some ([b, c1], rest1) else none
      | [] => none
    else if 224 ≤ b && b ≤ 239 then
      match rest with
      | c1 :: c2 :: rest2 =>
        if utf8FirstCont b c1 && utf8Cont c2 then some ([b, c1, c2], rest2)
        else none
      | _ => none
    else if 240 ≤ b && b ≤ 244 then
      match rest with
      | c1 :: c2 :: c3 :: rest3 =>
        if utf8FirstCont b c1 && utf8Cont c2 && utf8Cont c3 then
          some ([b, c1, c2, c3], rest3)
        else none
      | _ => none
    else none

/-- Full UTF-8 decoding, fueled: `utf8Step` consumes at least one byte per
character, so `l.length` iterations always suffice. -/
def utf8CharsAux : Nat → List Nat → Option (List (List Nat))
  | _, [] => some []
  | 0, _ :: _ => none
  | fuel + 1, l =>
    match utf8Step l with
    | none => none
    | some (c, rest) => (utf8CharsAux fuel rest).map (c :: ·)

/-- Decode a byte list as UTF-8 (`std::str::from_utf8`): `some` gives the
character list, `none` means invalid UTF-8. -/
def utf8Chars? (l : List Nat) : Option (List (List Nat)) :=
  utf8CharsAux l.length l

/-- The length of the maximal subpart of a valid UTF-8 sequence at the head
of an invalid position (Rust's `Utf8Error` semantics: how many bytes are
replaced by one U+FFFD in `from_utf8_lossy`).  Only consulted when
`utf8Step` fails on a nonempty list, where it is at least 1. -/
def utf8InvalidLen : List Nat → Nat
  | [] => 1
  | b :: rest =>
    if 224 ≤ b && b ≤ 244 then
      match rest with
      | [] => 1
      | c1 :: rest1 =>
        if utf8FirstCont b c1 then
          if 240 ≤ b then
            match rest1 with
            | [] => 2
            | c2 :: _ => if utf8Cont c2 then 3 else 2
          else 2
        else 1
    else 1

/-- The UTF-8 encoding of U+FFFD REPLACEMENT CHARACTER. -/
def replacementChar : List Nat := [239, 191, 189]

/-- `String::from_utf8_lossy`, fueled (each step consumes at least one
byte, so `l.length` iterations suffice). -/
def utf8LossyAux : Nat → List Nat → List Nat
  | _, [] => []
  | 0, _ :: _ => []
  | fuel + 1, l =>
    match utf8Step l with
    | some (c, rest) => c ++ utf8LossyAux fuel rest
    | none => replacementChar ++ utf8LossyAux fuel (l.drop (utf8InvalidLen l))

/-- `String::from_utf8_lossy`, as a byte transformation. -/
def fromUtf8Lossy (l : List Nat) : List Nat :=
  utf8LossyAux l.length l

/-- `BufferManager::as_str`: `from_utf8(buffer).unwrap_or("")`, a string
being modelled as its UTF-8 bytes. -/
def BufferManager.as_str (bm : BufferManager) : List Nat :=
  if (utf8Chars? bm.buffer).isSome then bm.buffer else []

/-! ### Matchers (`src/pattern/matcher.rs`) -/

/-- `Match`.  The source field `end` is a Lean keyword and is named `stop`
here. -/
structure Match where
  start : Nat
  stop : Nat
  captures : List (List Nat)
deriving DecidableEq, Repr

/-- `PatternError` (`src/result/error.rs`); the error payloads (messages
from external crates) are dropped. -/
inductive PatternError where
  | invalidRegex
  | invalidGlob
  | emptyPattern
deriving DecidableEq, Repr

/-- `ExactMatcher`: the pattern bytes together with the 256-entry
Boyer-Moore-Horspool bad-character table. -/
structure ExactMatcher where
  pattern : List Nat
  bad_char_table : List Nat
deriving DecidableEq, Repr

/-- The bad-character table built by `ExactMatcher::new`: every entry starts
at `pattern.len()`, then for each `i` over the pattern except its final byte
the entry at `pattern[i]` is set to `pattern.len() - 1 - i` (later indices
overwrite earlier ones). -/
def buildBadCharTable (p : List Nat) : List Nat :=
  (List.range (p.length - 1)).foldl
    (fun t i => t.set (p.getD i 0) (p.length - 1 - i))
    (List.replicate 256 p.length)

/-- The bad-character table after processing only the first `n` pattern
positions (`tableAux p (p.length - 1) = buildBadCharTable p`); used to
reason about the table by induction on `n`. -/
def tableAux (p : List Nat) (n : Nat) : List Nat :=
  (List.range n).foldl
    (fun t i => t.set (p.getD i 0) (p.length - 1 - i))
    (List.replicate 256 p.length)

/-- `ExactMatcher::new`: empty patterns are rejected with `EmptyPattern`. -/
def ExactMatcher.new (p : List Nat) : Except PatternError ExactMatcher :=
  if p = [] then .error .emptyPattern
  else .ok ⟨p, buildBadCharTable p⟩

/-- The `while` loop of `ExactMatcher::find`, fueled.  For a pattern
accepted by `ExactMatcher::new` every bad-character shift is at least 1
(proved below), so `pos` strictly increases and `buffer.length + 1`
iterations always suffice; for the empty pattern the first iteration
returns a match, so the same fuel suffices there too. -/
def bmhLoop (m : ExactMatcher) (buffer : List Nat) : Nat → Nat → Option Match
  | _, 0 => none
  | pos, fuel + 1 =>
    if pos + m.pattern.length ≤ buffer.length then
      if listExtract buffer pos m.pattern.length = m.pattern then
        some ⟨pos, pos + m.pattern.length, []⟩
      else
        bmhLoop m buffer
          (pos + m.bad_char_table.getD
            (buffer.getD (pos + m.pattern.length - 1) 0) 0) fuel
    else none

/-- `ExactMatcher::find`. -/
def ExactMatcher.find (m : ExactMatcher) (buffer : List Nat) : Option Match :=
  if buffer.length < m.pattern.length then none
  else bmhLoop m buffer 0 (buffer.length + 1)

/-- `RegexMatcher`.  The compiled `regex::Regex` is external to the
repository; its `captures` computation on the decoded text is abstracted as
the function `engine` from the buffer's bytes (known to be valid UTF-8 when
consulted) to the optional match. -/
structure RegexMatcher where
  engine : List Nat → Option Match

/-- `RegexMatcher::find`: decode the buffer as UTF-8 (`?` turns a decode
failure into `None`), then run the compiled regex. -/
def RegexMatcher.find (r : RegexMatcher) (buffer : List Nat) : Option Match :=
  if (utf8Chars? buffer).isSome then r.engine buffer else none

/-- `GlobMatcher`.  The compiled `globset` matcher is external to the
repository; its `is_match` test is abstracted as the predicate `matcher` on
the candidate substring's bytes. -/
structure GlobMatcher where
  matcher : List Nat → Bool

/-- Byte offset `n` is a character boundary of the decoded string. -/
def isBoundary : List (List Nat) → Nat → Bool
  | _, 0 => true
  | [], _ + 1 => false
  | c :: cs, n + 1 =>
    if n + 1 < c.length then false else isBoundary cs (n + 1 - c.length)

/-- All candidate `(start, end)` pairs scanned by `GlobMatcher::find`, in
the source's iteration order: `start` ascending over `0..len`, and for each
`start`, `end` ascending over `start+1..=len`. -/
def globPairs (len : Nat) : List (Nat × Nat) :=
  (List.range len).flatMap fun s =>
    (List.range (len - s)).map fun k => (s, s + k + 1)

/-- The nested substring scan of `GlobMatcher::find`.  `&text[start..end]`
panics when `start` or `end` is not a character boundary; the panic is
modelled as `.error ()`. -/
def globFindAux (accept : List Nat → Bool) (chars : List (List Nat))
    (bytes : List Nat) : List (Nat × Nat) → Except Unit (Option Match)
  | [] => .ok none
  | (s, e) :: ps =>
    if isBoundary chars s && isBoundary chars e then
      if accept (listExtract bytes s (e - s)) then .ok (some ⟨s, e, []⟩)
      else globFindAux accept chars bytes ps
    else .error ()

/-- `GlobMatcher::find`: decode the buffer (`?` turns a decode failure into
`None`), then test every substring in increasing `(start, end)` byte-offset
order against the compiled glob. -/
def GlobMatcher.find (g : GlobMatcher) (buffer : List Nat) :
    Except Unit (Option Match) :=
  match utf8Chars? buffer with
  | none => .ok none
  | some chars => globFindAux g.matcher chars buffer (globPairs buffer.length)

/-- `NullMatcher::find`: the first `0x00` byte as a one-byte match. -/
def NullMatcher.find (buffer : List Nat) : Option Match :=
  match buffer.findIdx? (· = 0) with
  | some pos => some ⟨pos, pos + 1, []⟩
  | none => none

/-! ### Patterns and the matcher dispatch (`src/pattern/mod.rs`) -/

/-- `Pattern`.  `Exact` and `Glob` carry strings as byte lists; `Regex`
carries the compiled regex (abstracted as in `RegexMatcher`). -/
inductive Pattern where
  | exact (s : List Nat)
  | regex (r : RegexMatcher)
  | glob (g : List Nat)
  | eof
  | timeout
  | fullBuffer
  | null

/-- The closed set of concrete matcher shapes behind the `Matcher` trait
object. -/
inductive Matcher where
  | exactM (m : ExactMatcher)
  | regexM (r : RegexMatcher)
  | globM (g : GlobMatcher)
  | nullM

/-- `Matcher::find` dispatch.  Only the glob matcher can panic. -/
def Matcher.find : Matcher → List Nat → Except Unit (Option Match)
  | .exactM m, buffer => .ok (m.find buffer)
  | .regexM r, buffer => .ok (r.find buffer)
  | .globM g, buffer => g.find buffer
  | .nullM, buffer => .ok (NullMatcher.find buffer)

/-- `Pattern::to_matcher`.  `globCompile` abstracts the external `globset`
compilation (`Glob::new` + `compile_matcher`), which can fail on invalid
glob syntax.  Recompiling an already-compiled regex succeeds, so the regex
arm is total.  Special patterns are rejected with the `InvalidGlob` error
the source constructs for them. -/
def Pattern.to_matcher (globCompile : List Nat → Except PatternError GlobMatcher) :
    Pattern → Except PatternError Matcher
  | .exact s => (ExactMatcher.new s).map .exactM
  | .regex r => .ok (.regexM r)
  | .glob g => (globCompile g).map .globM
  | .null => .ok .nullM
  | .eof => .error .invalidGlob
  | .timeout => .error .invalidGlob
  | .fullBuffer => .error .invalidGlob

/-- `matches!(p, Pattern::Eof)`. -/
def Pattern.isEof : Pattern → Bool
  | .eof => true
  | _ => false

/-- `matches!(p, Pattern::Timeout)`. -/
def Pattern.isTimeout : Pattern → Bool
  | .timeout => true
  | _ => false

/-- `matches!(p, Pattern::FullBuffer)`. -/
def Pattern.isFullBuffer : Pattern → Bool
  | .fullBuffer => true
  | _ => false

/-- `Pattern::is_special`: `Eof`, `Timeout` and `FullBuffer`. -/
def Pattern.isSpecial : Pattern → Bool
  | .eof => true
  | .timeout => true
  | .fullBuffer => true
  | _ => false

/-! ### Expect engine (`src/session/mod.rs`) -/

/-- `MatchResult` (`src/result/mod.rs`).  The source field `end` is named
`stop`; `matched` and `before` are strings, modelled as byte lists. -/
structure MatchResult where
  pattern_index : Nat
  matched : List Nat
  start : Nat
  stop : Nat
  before : List Nat
  captures : List (List Nat)
deriving DecidableEq, Repr

/-- `ExpectError` (`src/result/error.rs`).  Durations are modelled as `Nat`;
string payloads of the transport errors are dropped. -/
inductive ExpectError where
  | timeout (duration : Nat)
  | eof
  | fullBuffer (size : Nat)
  | patternErr (e : PatternError)
  | ioError
  | ptyError
  | spawnError
  | processExited
deriving DecidableEq, Repr

/-- The fields of `Session` that the `expect_any` loop reads or writes.
The PTY channel itself is abstracted by the read-event trace below. -/
structure SessionState where
  buffer : BufferManager
  timeout : Option Nat
  eof_reached : Bool
  max_buffer_size : Nat
deriving DecidableEq, Repr

/-- One result of `read_with_timeout`, as seen by the loop: `data []` is
`Ok(0)` (EOF), `data bytes` with `bytes ≠ []` is `Ok(n)`, `wouldBlock` and
`timedOut` are the two absorbed error kinds, `ioError` is any other error. -/
inductive ReadEvent where
  | data (bytes : List Nat)
  | wouldBlock
  | timedOut
  | ioError
deriving DecidableEq, Repr

/-- The matcher-construction pass at the top of `expect_any`: specials only
set flags (queried via `Pattern.isEof` &c. below); each other pattern is
paired with its declared index when `to_matcher` succeeds and is silently
skipped when it fails. -/
def buildMatchers (globCompile : List Nat → Except PatternError GlobMatcher)
    (patterns : List Pattern) : List (Nat × Matcher) :=
  patterns.enum.filterMap fun ip =>
    if ip.2.isSpecial then none
    else
      match ip.2.to_matcher globCompile with
      | .ok m => some (ip.1, m)
      | .error _ => none

/-- The `for (pattern_idx, matcher) in &matchers` scan: the first matcher
(in declared-index order) whose `find` returns a match wins.  A matcher
panic (glob) propagates. -/
def findFirstMatch : List (Nat × Matcher) → List Nat →
    Except Unit (Option (Nat × Match))
  | [], _ => .ok none
  | (i, m) :: rest, window =>
    match m.find window with
    | .error e => .error e
    | .ok (some mm) => .ok (some (i, mm))
    | .ok none => findFirstMatch rest window

/-- The `MatchResult` built for a `Timeout` resolution: empty match at the
buffer end. -/
def timeoutSuccess (patterns : List Pattern) (st : SessionState) : MatchResult :=
  ⟨patterns.findIdx Pattern.isTimeout, [], st.buffer.len, st.buffer.len,
    st.buffer.as_str, []⟩

/-- The `MatchResult` built for an `Eof` resolution: empty match at the
buffer end. -/
def eofSuccess (patterns : List Pattern) (st : SessionState) : MatchResult :=
  ⟨patterns.findIdx Pattern.isEof, [], st.buffer.len, st.buffer.len,
    st.buffer.as_str, []⟩

/-- Result of the checks an iteration performs before reading: either the
loop returns (`out r`, where `r = none` models a panic) or it falls through
to the timeout check and the read. -/
inductive ScanResult where
  | out (r : Option (Except ExpectError MatchResult))
  | readMore

/-- The head of each loop iteration of `expect_any`: (a) scan the concrete
matchers over `unmatched()` in declared order and on a win build the
`MatchResult` (the absolute slice `as_bytes()[start..end]` panics when out
of range) and advance the boundary; (b) resolve EOF if reached and `Eof`
was requested; (c) raise `FullBuffer` if the buffer is at least
`max_buffer_size` and `FullBuffer` was requested. -/
def expectScan (ms : List (Nat × Matcher)) (patterns : List Pattern)
    (st : SessionState) : ScanResult :=
  match st.buffer.unmatched? with
  | none => .out none
  | some window =>
    match findFirstMatch ms window with
    | .error _ => .out none
    | .ok (some im) =>
      if st.buffer.matched_position + im.2.start ≤
          st.buffer.matched_position + im.2.stop ∧
          st.buffer.matched_position + im.2.stop ≤
            st.buffer.buffer.length then
        .out (some (.ok
          ⟨im.1,
           fromUtf8Lossy
             (listExtract st.buffer.buffer
               (st.buffer.matched_position + im.2.start)
               (st.buffer.matched_position + im.2.stop -
                 (st.buffer.matched_position + im.2.start))),
           st.buffer.matched_position + im.2.start,
           st.buffer.matched_position + im.2.stop,
           fromUtf8Lossy
             (st.buffer.before (st.buffer.matched_position + im.2.start)),
           im.2.captures⟩))
      else .out none
    | .ok none =>
      if st.eof_reached && patterns.any Pattern.isEof then
        .out (some (.ok (eofSuccess patterns st)))
      else if st.max_buffer_size ≤ st.buffer.len &&
          patterns.any Pattern.isFullBuffer then
        .out (some (.error (.fullBuffer st.buffer.len)))
      else .readMore

/-- Result of handling one read event: the loop either returns or continues
with an updated state. -/
inductive ReadStep where
  | out (r : Option (Except ExpectError MatchResult))
  | next (st : SessionState)

/-- The `match self.read_with_timeout(..)` arm of the loop body. -/
def handleRead (patterns : List Pattern) (st : SessionState) :
    ReadEvent → ReadStep
  | .data bytes =>
    if bytes.isEmpty then
      if !(patterns.any Pattern.isEof) then .out (some (.error .eof))
      else .next { st with eof_reached := true }
    else
      match st.buffer.appendR bytes with
      | .ok bm' => .next { st with buffer := bm' }
      | .error _ => .out (some (.error .ioError))
  | .wouldBlock => .next st
  | .timedOut =>
    .out (some
      (if patterns.any Pattern.isTimeout then .ok (timeoutSuccess patterns st)
       else
         match st.timeout with
         | some t => .error (.timeout t)
         | none => .error .ioError))
  | .ioError => .out (some (.error .ioError))

/-- The `loop` of `expect_any`, driven by an environment trace: each trace
element supplies the elapsed time observed by that iteration's timeout
check together with that iteration's read result.  `none` means the trace
ran out (the real loop would keep iterating) or a panic occurred. -/
def expectLoop (ms : List (Nat × Matcher)) (patterns : List Pattern) :
    List (Nat × ReadEvent) → SessionState →
    Option (Except ExpectError MatchResult)
  | trace, st =>
    match expectScan ms patterns st with
    | .out r => r
    | .readMore =>
      match trace with
      | [] => none
      | (elapsed, ev) :: rest =>
        match st.timeout with
        | some t =>
          if t ≤ elapsed then
            some
              (if patterns.any Pattern.isTimeout then
                .ok (timeoutSuccess patterns st)
               else .error (.timeout t))
          else
            match handleRead patterns st ev with
            | .out r => r
            | .next st' => expectLoop ms patterns rest st'
        | none =>
          match handleRead patterns st ev with
          | .out r => r
          | .next st' => expectLoop ms patterns rest st'

/-- A concrete glob-compilation environment used by witnesses and
counterexamples (they use no glob patterns, so any value works; this one
rejects every glob). -/
def gcFail : List Nat → Except PatternError GlobMatcher :=
  fun _ => .error .invalidGlob

/-- `Session::expect_any`: build the matchers and flags, then run the loop. -/
def Session.expect_any
    (globCompile : List Nat → Except PatternError GlobMatcher)
    (patterns : List Pattern) (st : SessionState)
    (trace : List (Nat × ReadEvent)) :
    Option (Except ExpectError MatchResult) :=
  expectLoop (buildMatchers globCompile patterns) patterns trace st

/-! ## Theorems

### The ANSI stripper (claim C9) -/

/-- The escape byte `0x1b` occurs at most at the last position. -/
def escOnlyLast (l : List Nat) : Prop :=
  ∀ i, i + 1 < l.length → l.getD i 0 ≠ 27

theorem escOnlyLast_nil : escOnlyLast [] := by
  intro i h
  simp at h

theorem escOnlyLast_singleton (b : Nat) : escOnlyLast [b] := by
  intro i h
  simp at h

theorem escOnlyLast_cons {b : Nat} {l : List Nat} (hb : b ≠ 27)
    (hl : escOnlyLast l) : escOnlyLast (b :: l) := by
  intro i h
  cases i with
  | zero => simpa using hb
  | succ j =>
    simp only [List.getD_cons_succ]
    exact hl j (by simpa using h)

theorem escOnlyLast_of_cons {b : Nat} {l : List Nat}
    (h : escOnlyLast (b :: l)) : escOnlyLast l := by
  intro i hi
  have := h (i + 1) (by simp; omega)
  simpa using this

theorem escOnlyLast_head {b : Nat} {l : List Nat} (h : escOnlyLast (b :: l))
    (hl : l ≠ []) : b ≠ 27 := by
  have := h 0 (by cases l with
    | nil => exact absurd rfl hl
    | cons c t => simp)
  simpa using this

/-- Every byte `strip_ansi` emits, except possibly the final one, differs
from `0x1b`: a lone trailing escape byte is the only way the escape byte
survives. -/
theorem stripAnsiAux_escOnlyLast (fuel : Nat) :
    ∀ l : List Nat, escOnlyLast (stripAnsiAux fuel l) := by
  induction fuel with
  | zero =>
    intro l
    cases l with
    | nil => exact escOnlyLast_nil
    | cons b t => exact escOnlyLast_nil
  | succ fuel ih =>
    intro l
    match l with
    | [] => exact escOnlyLast_nil
    | [b] => exact escOnlyLast_singleton b
    | b :: c :: rest =>
      simp only [stripAnsiAux]
      by_cases hb : b = 27
      · simp only [hb, if_true]
        by_cases hc1 : c = 91
        · simp only [hc1, if_true]; exact ih _
        · simp only [hc1, if_false]
          by_cases hc2 : c = 93
          · simp only [hc2, if_true]; exact ih _
          · simp only [hc2, if_false]
            by_cases hc3 : c = 40 ∨ c = 41
            · simp only [hc3, if_true]
              cases rest with
              | nil => exact escOnlyLast_nil
              | cons d t => exact ih _
            · simp only [hc3, if_false]; exact ih _
      · simp only [hb, if_false]
        rcases h : stripAnsiAux fuel (c :: rest) with _ | ⟨x, xs⟩
        · exact escOnlyLast_singleton b
        · exact escOnlyLast_cons hb (h ▸ ih (c :: rest))

/-- `strip_ansi` is the identity on inputs whose escape byte occurs at most
at the last position. -/
theorem stripAnsiAux_fixed (fuel : Nat) :
    ∀ l : List Nat, l.length ≤ fuel → escOnlyLast l →
      stripAnsiAux fuel l = l := by
  induction fuel with
  | zero =>
    intro l hlen _
    cases l with
    | nil => rfl
    | cons b t => simp at hlen
  | succ fuel ih =>
    intro l hlen hesc
    match l with
    | [] => rfl
    | [b] => rfl
    | b :: c :: rest =>
      have hb : b ≠ 27 := escOnlyLast_head hesc (by simp)
      simp only [stripAnsiAux, hb, if_false]
      congr 1
      exact ih (c :: rest) (by simp at hlen ⊢; omega)
        (escOnlyLast_of_cons hesc)

/-- Claim C9: `strip_ansi` applied to a byte slice containing no escape
sequences (no `0x1b` byte at all) returns that slice unchanged, and
`strip_ansi` is idempotent on every input. -/
theorem strip_ansi_id_and_idempotent :
    (∀ data : List Nat, (∀ b ∈ data, b ≠ 27) → strip_ansi data = data) ∧
    (∀ data : List Nat, strip_ansi (strip_ansi data) = strip_ansi data) := by
  constructor
  · intro data hdata
    have hesc : escOnlyLast data := by
      intro i hi
      have hmem : data.getD i 0 ∈ data := by
        rw [List.getD_eq_getElem _ _ (by omega)]
        exact List.getElem_mem _
      exact hdata _ hmem
    exact stripAnsiAux_fixed data.length data le_rfl hesc
  · intro data
    exact stripAnsiAux_fixed _ _ le_rfl (stripAnsiAux_escOnlyLast _ _)

/-- Witness for C9 at concrete inputs: `"Hi"` (no escapes) is unchanged,
and stripping `ESC [ 3 1 m r` twice equals stripping it once. -/
theorem strip_ansi_id_and_idempotent_witness :
    strip_ansi [72, 105] = [72, 105] ∧
    strip_ansi (strip_ansi [27, 91, 51, 49, 109, 114]) =
      strip_ansi [27, 91, 51, 49, 109, 114] :=
  ⟨strip_ansi_id_and_idempotent.1 [72, 105] (by decide),
   strip_ansi_id_and_idempotent.2 [27, 91, 51, 49, 109, 114]⟩

/-! ### The exact matcher (claim C4) -/

theorem getD_set_eq {l : List Nat} {k v : Nat} (h : k < l.length) :
    (l.set k v).getD k 0 = v := by
  rw [List.getD_eq_getElem?_getD, List.getElem?_set_self h]
  rfl

theorem getD_set_ne {l : List Nat} {k v j : Nat} (h : k ≠ j) :
    (l.set k v).getD j 0 = l.getD j 0 := by
  rw [List.getD_eq_getElem?_getD, List.getElem?_set_ne h,
    ← List.getD_eq_getElem?_getD]

theorem getD_replicate {n a j : Nat} (h : j < n) :
    (List.replicate n a).getD j 0 = a := by
  rw [List.getD_eq_getElem?_getD, List.getElem?_replicate_of_lt h]
  rfl

theorem tableAux_succ (p : List Nat) (n : Nat) :
    tableAux p (n + 1) =
      (tableAux p n).set (p.getD n 0) (p.length - 1 - n) := by
  unfold tableAux
  rw [List.range_succ, List.foldl_append]
  rfl

theorem tableAux_length (p : List Nat) : ∀ n, (tableAux p n).length = 256 := by
  intro n
  induction n with
  | zero =>
    rw [show tableAux p 0 = List.replicate 256 p.length from rfl,
      List.length_replicate]
  | succ n ih => rw [tableAux_succ, List.length_set]; exact ih

theorem tableAux_le (p : List Nat) :
    ∀ n b, (tableAux p n).getD b 0 ≤ p.length := by
  intro n
  induction n with
  | zero =>
    intro b
    rw [show tableAux p 0 = List.replicate 256 p.length from rfl]
    by_cases hb : b < 256
    · rw [getD_replicate hb]
    · rw [List.getD_eq_getElem?_getD,
        List.getElem?_eq_none (by rw [List.length_replicate]; omega)]
      simp
  | succ n ih =>
    intro b
    rw [tableAux_succ]
    by_cases hk : p.getD n 0 < 256
    · by_cases hkb : p.getD n 0 = b
      · subst hkb
        rw [getD_set_eq (by rw [tableAux_length]; exact hk)]
        omega
      · rw [getD_set_ne hkb]; exact ih b
    · rw [List.set_eq_of_length_le (by rw [tableAux_length]; omega)]
      exact ih b

theorem tableAux_pos (p : List Nat) (hp : p ≠ []) :
    ∀ n, n ≤ p.length - 1 → ∀ b, b < 256 → 1 ≤ (tableAux p n).getD b 0 := by
  have hlen : 1 ≤ p.length := List.length_pos.mpr hp
  intro n
  induction n with
  | zero =>
    intro _ b hb
    rw [show tableAux p 0 = List.replicate 256 p.length from rfl,
      getD_replicate hb]
    exact hlen
  | succ n ih =>
    intro hn b hb
    rw [tableAux_succ]
    by_cases hk : p.getD n 0 < 256
    · by_cases hkb : p.getD n 0 = b
      · subst hkb
        rw [getD_set_eq (by rw [tableAux_length]; exact hk)]
        omega
      · rw [getD_set_ne hkb]; exact ih (by omega) b hb
    · rw [List.set_eq_of_length_le (by rw [tableAux_length]; omega)]
      exact ih (by omega) b hb

theorem tableAux_le_dist (p : List Nat) (hp256 : ∀ x ∈ p, x < 256) :
    ∀ n, n ≤ p.length → ∀ i, i < n → ∀ b, p.getD i 0 = b →
      (tableAux p n).getD b 0 ≤ p.length - 1 - i := by
  intro n
  induction n with
  | zero => intro _ i hi; omega
  | succ n ih =>
    intro hn i hi b hb
    have hk : p.getD n 0 < 256 := by
      have hmem : p.getD n 0 ∈ p := by
        rw [List.getD_eq_getElem _ _ (by omega)]
        exact List.getElem_mem _
      exact hp256 _ hmem
    rw [tableAux_succ]
    rcases Nat.lt_succ_iff_lt_or_eq.mp hi with hi' | hi'
    · by_cases hkb : p.getD n 0 = b
      · subst hkb
        rw [getD_set_eq (by rw [tableAux_length]; exact hk)]
        omega
      · rw [getD_set_ne hkb]
        exact ih (by omega) i hi' b hb
    · subst hi'
      rw [hb, getD_set_eq (by rw [tableAux_length]; exact hb ▸ hk)]

theorem badCharTable_pos (p : List Nat) (hp : p ≠ []) {b : Nat}
    (hb : b < 256) : 1 ≤ (buildBadCharTable p).getD b 0 :=
  tableAux_pos p hp (p.length - 1) le_rfl b hb

theorem badCharTable_le (p : List Nat) (b : Nat) :
    (buildBadCharTable p).getD b 0 ≤ p.length :=
  tableAux_le p (p.length - 1) b

theorem badCharTable_le_dist (p : List Nat) (hp256 : ∀ x ∈ p, x < 256)
    {i b : Nat} (hi : i + 1 < p.length) (hb : p.getD i 0 = b) :
    (buildBadCharTable p).getD b 0 ≤ p.length - 1 - i :=
  tableAux_le_dist p hp256 (p.length - 1) (by omega) i (by omega) b hb

theorem occursAt_getD {p l : List Nat} {s : Nat} (h : occursAt p l s) :
    ∀ j, j < p.length → l.getD (s + j) 0 = p.getD j 0 := by
  obtain ⟨hlen, hext⟩ := h
  intro j hj
  have hrw : (listExtract l s p.length).getD j 0 = p.getD j 0 := by rw [hext]
  rw [← hrw]
  unfold listExtract
  rw [List.getD_eq_getElem?_getD ((l.drop s).take p.length) j 0,
    List.getElem?_take_of_lt hj, List.getElem?_drop,
    ← List.getD_eq_getElem?_getD]

/-- Correctness of the fueled Boyer-Moore-Horspool loop: given enough fuel
and the invariant that no occurrence starts before `pos`, the loop returns
the leftmost occurrence at or after `pos`, or `none` when there is none. -/
theorem bmhLoop_spec (p buffer : List Nat) (hp : p ≠ [])
    (hp256 : ∀ x ∈ p, x < 256) (hbuf : ∀ x ∈ buffer, x < 256) :
    ∀ fuel pos, buffer.length + 1 ≤ pos + fuel →
      (∀ t, t < pos → ¬ occursAt p buffer t) →
      (match bmhLoop ⟨p, buildBadCharTable p⟩ buffer pos fuel with
       | some mm =>
         occursAt p buffer mm.start ∧ mm.stop = mm.start + p.length ∧
           mm.captures = [] ∧ ∀ t, t < mm.start → ¬ occursAt p buffer t
       | none => ∀ t, ¬ occursAt p buffer t) := by
  have hplen : 1 ≤ p.length := List.length_pos.mpr hp
  intro fuel
  induction fuel with
  | zero =>
    intro pos hfuel hinv
    simp only [bmhLoop]
    intro t hocc
    exact hinv t (by have := hocc.1; omega) hocc
  | succ fuel ih =>
    intro pos hfuel hinv
    simp only [bmhLoop]
    by_cases hcond : pos + p.length ≤ buffer.length
    · simp only [hcond, if_true]
      by_cases hmatch : listExtract buffer pos p.length = p
      · simp only [hmatch, if_true]
        refine ⟨⟨hcond, hmatch⟩, ?_, ?_, hinv⟩ <;> trivial
      · simp only [hmatch, if_false]
        set b := buffer.getD (pos + p.length - 1) 0 with hbdef
        have hb256 : b < 256 := by
          have hmem : b ∈ buffer := by
            rw [hbdef, List.getD_eq_getElem _ _ (by omega)]
            exact List.getElem_mem _
          exact hbuf _ hmem
        set shift := (buildBadCharTable p).getD b 0 with hsdef
        have hshift1 : 1 ≤ shift := badCharTable_pos p hp hb256
        have hshiftle : shift ≤ p.length := badCharTable_le p b
        apply ih (pos + shift) (by omega)
        intro t ht hocc
        rcases Nat.lt_or_ge t pos with htp | htp
        · exact hinv t htp hocc
        · rcases Nat.eq_or_lt_of_le htp with htp' | htp'
          · exact hmatch (htp' ▸ hocc.2)
          · set d := t - pos with hddef
            have hd1 : 1 ≤ d := by omega
            have hdlt : d < shift := by omega
            have hdle : d ≤ p.length - 1 := by omega
            set j := p.length - 1 - d with hjdef
            have hjlt : j < p.length := by omega
            have hpoint := occursAt_getD hocc j hjlt
            have hidx : t + j = pos + p.length - 1 := by omega
            have hpj : p.getD j 0 = b := by
              rw [← hpoint, hidx]
            have hjsucc : j + 1 < p.length := by omega
            have := badCharTable_le_dist p hp256 hjsucc hpj
            omega
    · simp only [hcond, if_false]
      intro t hocc
      have h1 := hocc.1
      exact hinv t (by omega) hocc

/-- Claim C4: for every nonempty (byte-valued) pattern accepted by
`ExactMatcher::new`, `find` is leftmost-first: a returned match starts at
the lowest offset at which the pattern occurs in the buffer and ends at
start plus the pattern length, and `find` returns `none` exactly when the
pattern occurs nowhere. -/
theorem ExactMatcher_find_leftmost (p buffer : List Nat) (m : ExactMatcher)
    (hnew : ExactMatcher.new p = .ok m)
    (hp256 : ∀ x ∈ p, x < 256) (hbuf : ∀ x ∈ buffer, x < 256) :
    (∀ mm, m.find buffer = some mm →
      occursAt p buffer mm.start ∧ mm.stop = mm.start + p.length ∧
        ∀ t, t < mm.start → ¬ occursAt p buffer t) ∧
    (m.find buffer = none → ∀ t, ¬ occursAt p buffer t) := by
  have hp : p ≠ [] := by
    intro hcon
    rw [ExactMatcher.new, if_pos hcon] at hnew
    exact Except.noConfusion hnew
  have hm : m = ⟨p, buildBadCharTable p⟩ := by
    rw [ExactMatcher.new, if_neg hp] at hnew
    exact (Except.ok.inj hnew).symm
  subst hm
  have hplen : 1 ≤ p.length := List.length_pos.mpr hp
  rw [ExactMatcher.find]
  by_cases hshort : buffer.length < p.length
  · simp only [hshort, if_true]
    refine ⟨fun mm hmm => Option.noConfusion hmm, fun _ t hocc => ?_⟩
    have := hocc.1
    omega
  · simp only [hshort, if_false]
    have hspec := bmhLoop_spec p buffer hp hp256 hbuf (buffer.length + 1) 0
      (by omega) (fun t ht => absurd ht (Nat.not_lt_zero t))
    constructor
    · intro mm hmm
      rw [hmm] at hspec
      exact ⟨hspec.1, hspec.2.1, hspec.2.2.2⟩
    · intro hnone
      rw [hnone] at hspec
      exact hspec

/-- Witness for C4: pattern `"bc"` in `"abcbc"` — the match found starts at
the leftmost occurrence, offset 1, and ends at 1 + 2. -/
theorem ExactMatcher_find_leftmost_witness :
    occursAt [98, 99] [97, 98, 99, 98, 99] 1 ∧ (3 : Nat) = 1 + 2 ∧
      ¬ occursAt [98, 99] [97, 98, 99, 98, 99] 0 := by
  have h := (ExactMatcher_find_leftmost [98, 99] [97, 98, 99, 98, 99]
    ⟨[98, 99], buildBadCharTable [98, 99]⟩ rfl (by decide)
    (by decide)).1 ⟨1, 3, []⟩ (by decide)
  exact ⟨h.1, h.2.1, h.2.2 0 (by decide)⟩

/-! ### The buffer manager (claims C1, C6, C10) -/

/-- Counterexample to claim C1 as stated.  Reached by appends alone: with
`max_size = 3`, appending `"AB"` and then two more bytes triggers `compact`
on the state `⟨buffer = [65, 66], boundary = 0⟩`; `keep_from = max(1, 0) = 1`
discards byte `65`, which lies at offset `0 ≥ boundary` — so no uniform
downward shift `k` maps every unmatched byte of the old buffer into the
compacted buffer. -/
theorem compact_discards_unmatched_cx :
    (BufferManager.new 3 false).append [65, 66] =
      ⟨[65, 66], 0, 3, false⟩ ∧
    (BufferManager.compact ⟨[65, 66], 0, 3, false⟩).buffer = [66] ∧
    ¬ ∃ k ∈ List.range (2 + 1),
        ∀ i ∈ List.range 2,
          (BufferManager.mk [65, 66] 0 3 false).matched_position ≤ i →
            (i - k <
                (BufferManager.compact ⟨[65, 66], 0, 3, false⟩).buffer.length ∧
              (BufferManager.compact ⟨[65, 66], 0, 3, false⟩).buffer.getD
                  (i - k) 0 =
                (BufferManager.mk [65, 66] 0 3 false).buffer.getD i 0) := by
  decide

/-- Claim C1, amended: compaction never discards bytes at or after
`max(max_size / 3, matched boundary)` (the source's `keep_from`): every
such byte survives at its offset shifted down uniformly.  Bytes between
the boundary and `max_size / 3` may be discarded. -/
theorem compact_preserves_tail (bm : BufferManager) (i : Nat)
    (hk : max (bm.max_size / 3) bm.matched_position ≤ i)
    (hi : i < bm.buffer.length) :
    i - max (bm.max_size / 3) bm.matched_position <
      bm.compact.buffer.length ∧
    bm.compact.buffer.getD
        (i - max (bm.max_size / 3) bm.matched_position) 0 =
      bm.buffer.getD i 0 := by
  unfold BufferManager.compact
  by_cases h1 : 0 < max (bm.max_size / 3) bm.matched_position ∧
      max (bm.max_size / 3) bm.matched_position < bm.buffer.length
  · rw [if_pos h1]
    constructor
    · simp only [List.length_drop]
      omega
    · rw [List.getD_eq_getElem?_getD, List.getD_eq_getElem?_getD,
        List.getElem?_drop]
      congr 2
      omega
  · rw [if_neg h1]
    by_cases h2 : bm.buffer.length ≤ max (bm.max_size / 3) bm.matched_position
    · omega
    · rw [if_neg h2]
      have hkf0 : max (bm.max_size / 3) bm.matched_position = 0 := by omega
      rw [hkf0]
      exact ⟨by omega, rfl⟩

/-- Witness for the amended C1 at `⟨buffer = [65, 66, 67], boundary = 1,
max_size = 3⟩` and `i = 2`: `keep_from = 1` and byte `67` survives at
offset `1`. -/
theorem compact_preserves_tail_witness :
    2 - max (3 / 3) 1 <
      (BufferManager.compact ⟨[65, 66, 67], 1, 3, false⟩).buffer.length ∧
    (BufferManager.compact ⟨[65, 66, 67], 1, 3, false⟩).buffer.getD
        (2 - max (3 / 3) 1) 0 =
      (BufferManager.mk [65, 66, 67] 1 3 false).buffer.getD 2 0 :=
  compact_preserves_tail ⟨[65, 66, 67], 1, 3, false⟩ 2 (by decide) (by decide)

/-- Counterexample to claim C6 as stated: `mark_matched(100)` on a buffer
of length 5 leaves the boundary at 100 > 5, and `unmatched()` then panics
(modelled as `none`) — the boundary is not clamped to the length. -/
theorem mark_matched_no_clamp_cx :
    (((BufferManager.new 1024 false).append
        [72, 101, 108, 108, 111]).mark_matched 100).matched_position = 100 ∧
    (((BufferManager.new 1024 false).append
        [72, 101, 108, 108, 111]).mark_matched 100).buffer.length = 5 ∧
    ¬ boundaryInv (((BufferManager.new 1024 false).append
        [72, 101, 108, 108, 111]).mark_matched 100) ∧
    (((BufferManager.new 1024 false).append
        [72, 101, 108, 108, 111]).mark_matched 100).unmatched? = none := by
  decide

/-- Claim C6, amended: the boundary invariant `boundary ≤ length` holds
initially and is preserved by `append` and `compact`, and by
`mark_matched(end)` whenever `end` is at most the current length (as in
every call the session loop makes); under the invariant `unmatched()` is a
valid suffix slice.  `mark_matched` with an argument beyond the length
violates the invariant (see the counterexample). -/
theorem boundary_invariant_preserved :
    (∀ (max_size : Nat) (strip : Bool),
      boundaryInv (BufferManager.new max_size strip)) ∧
    (∀ bm : BufferManager, boundaryInv bm.compact) ∧
    (∀ (bm : BufferManager) (data : List Nat),
      boundaryInv bm → boundaryInv (bm.append data)) ∧
    (∀ (bm : BufferManager) (e : Nat), e ≤ bm.buffer.length →
      boundaryInv (bm.mark_matched e)) ∧
    (∀ bm : BufferManager, boundaryInv bm → (bm.unmatched?).isSome = true) := by
  have hcompact : ∀ bm : BufferManager, boundaryInv bm.compact := by
    intro bm
    have hle : bm.matched_position ≤
        max (bm.max_size / 3) bm.matched_position := le_max_right _ _
    unfold BufferManager.compact boundaryInv
    by_cases h1 : 0 < max (bm.max_size / 3) bm.matched_position ∧
        max (bm.max_size / 3) bm.matched_position < bm.buffer.length
    · rw [if_pos h1]
      simp only [List.length_drop]
      omega
    · rw [if_neg h1]
      by_cases h2 : bm.buffer.length ≤
          max (bm.max_size / 3) bm.matched_position
      · rw [if_pos h2]
        simp
      · rw [if_neg h2]
        omega
  refine ⟨?_, hcompact, ?_, ?_, ?_⟩
  · intro max_size strip
    simp [BufferManager.new, boundaryInv]
  · intro bm data hbm
    unfold BufferManager.append boundaryInv
    by_cases hc : bm.max_size <
        bm.buffer.length + (if bm.strip then strip_ansi data else data).length
    · rw [if_pos hc]
      simp only [List.length_append]
      have := hcompact bm
      unfold boundaryInv at this
      omega
    · rw [if_neg hc]
      simp only [List.length_append]
      unfold boundaryInv at hbm
      omega
  · intro bm e he
    unfold BufferManager.mark_matched boundaryInv
    exact he
  · intro bm hbm
    unfold boundaryInv at hbm
    unfold BufferManager.unmatched?
    rw [if_pos hbm]
    rfl

/-- Witness for the amended C6 at concrete inputs: a fresh buffer, a
compacted buffer, an append, an in-range `mark_matched`, and a valid
`unmatched()` slice. -/
theorem boundary_invariant_preserved_witness :
    boundaryInv (BufferManager.new 8 false) ∧
    boundaryInv (BufferManager.compact ⟨[65, 66], 1, 3, false⟩) ∧
    boundaryInv (BufferManager.append ⟨[65], 1, 8, false⟩ [66]) ∧
    boundaryInv (BufferManager.mark_matched ⟨[65, 66], 0, 8, false⟩ 2) ∧
    (BufferManager.unmatched? ⟨[65, 66], 1, 8, false⟩).isSome = true :=
  ⟨boundary_invariant_preserved.1 8 false,
   boundary_invariant_preserved.2.1 _,
   boundary_invariant_preserved.2.2.1 _ [66] (by decide),
   boundary_invariant_preserved.2.2.2.1 _ 2 (by decide),
   boundary_invariant_preserved.2.2.2.2 _ (by decide)⟩

/-- Claim C10: `append` always returns `Ok` (the `io::Result` is `.ok` on
every path, compacting at most once — the single `compact` call inside
`append` — before extending), and `max_size` is no upper bound on the
buffer length: whenever the appended chunk alone is larger than
`max_size` (with ANSI stripping off), the buffer exceeds `max_size`
after the append. -/
theorem append_ok_and_can_exceed :
    (∀ (bm : BufferManager) (data : List Nat),
      bm.appendR data = .ok (bm.append data)) ∧
    (∀ (bm : BufferManager) (data : List Nat), bm.strip = false →
      bm.max_size < data.length →
      bm.max_size < (bm.append data).buffer.length) := by
  constructor
  · intro bm data
    unfold BufferManager.appendR BufferManager.append BufferManager.compactR
    by_cases hc : bm.max_size <
        bm.buffer.length + (if bm.strip then strip_ansi data else data).length
    · rw [if_pos hc, if_pos hc]
      rfl
    · rw [if_neg hc, if_neg hc]
      rfl
  · intro bm data hstrip hlt
    unfold BufferManager.append
    rw [hstrip]
    simp only [Bool.false_eq_true, if_false, List.length_append]
    by_cases hc : bm.max_size < bm.buffer.length + data.length
    · rw [if_pos hc]
      omega
    · rw [if_neg hc]
      omega

/-- Witness for C10: appending a 4-byte chunk to an empty buffer with
`max_size = 3` returns `Ok` and leaves 4 bytes in the buffer. -/
theorem append_ok_and_can_exceed_witness :
    BufferManager.appendR ⟨[], 0, 3, false⟩ [1, 2, 3, 4] =
      .ok (BufferManager.append ⟨[], 0, 3, false⟩ [1, 2, 3, 4]) ∧
    3 < (BufferManager.append ⟨[], 0, 3, false⟩ [1, 2, 3, 4]).buffer.length :=
  ⟨append_ok_and_can_exceed.1 ⟨[], 0, 3, false⟩ [1, 2, 3, 4],
   append_ok_and_can_exceed.2 ⟨[], 0, 3, false⟩ [1, 2, 3, 4] rfl (by decide)⟩

/-! ### The expect loop (claims C2, C3, C5, C7) -/

theorem expectLoop_out {ms : List (Nat × Matcher)} {ps : List Pattern}
    {st : SessionState} {r : Option (Except ExpectError MatchResult)}
    (trace : List (Nat × ReadEvent)) (h : expectScan ms ps st = .out r) :
    expectLoop ms ps trace st = r := by
  cases trace with
  | nil => simp only [expectLoop, h]
  | cons e rest =>
    rcases e with ⟨elapsed, ev⟩
    simp only [expectLoop, h]

theorem unmatched?_eq_of_le {bm : BufferManager}
    (h : bm.matched_position ≤ bm.buffer.length) :
    bm.unmatched? = some (bm.buffer.drop bm.matched_position) := by
  rw [BufferManager.unmatched?, if_pos h]

/-- Claim C3, amended: when the buffer length has reached
`max_buffer_size`, no concrete pattern matches, the EOF resolution does not
fire, and `FullBuffer` *was* requested, `expect_any` raises the typed
`FullBuffer{size}` error (with the current buffer length) rather than
succeeding — regardless of what the channel would deliver next.  (When
`FullBuffer` was not requested the check is skipped entirely and the loop
keeps reading; see the counterexample.) -/
theorem expect_any_fullbuffer_requested_errors
    (gc : List Nat → Except PatternError GlobMatcher)
    (ps : List Pattern) (st : SessionState) (trace : List (Nat × ReadEvent))
    (hwin : st.buffer.matched_position ≤ st.buffer.buffer.length)
    (hnomatch : findFirstMatch (buildMatchers gc ps)
        (st.buffer.buffer.drop st.buffer.matched_position) = .ok none)
    (hne : ¬(st.eof_reached = true ∧ ps.any Pattern.isEof = true))
    (hfull : st.max_buffer_size ≤ st.buffer.len)
    (hreq : ps.any Pattern.isFullBuffer = true) :
    Session.expect_any gc ps st trace =
      some (.error (.fullBuffer st.buffer.len)) := by
  apply expectLoop_out trace
  have h1 : ¬((st.eof_reached && ps.any Pattern.isEof) = true) := by
    simp only [Bool.and_eq_true]
    exact hne
  have h2 : (decide (st.max_buffer_size ≤ st.buffer.len) &&
      ps.any Pattern.isFullBuffer) = true := by
    simp only [Bool.and_eq_true, decide_eq_true_eq]
    exact ⟨hfull, hreq⟩
  simp only [expectScan, unmatched?_eq_of_le hwin, hnomatch]
  rw [if_neg h1, if_pos h2]

/-- Witness for the amended C3: one `FullBuffer` pattern, a 1-byte buffer
with `max_buffer_size = 1` — the call fails with `FullBuffer{1}`. -/
theorem expect_any_fullbuffer_requested_errors_witness :
    Session.expect_any gcFail [.fullBuffer]
        ⟨⟨[65], 0, 100, false⟩, none, false, 1⟩ [] =
      some (.error (.fullBuffer
        (BufferManager.len ⟨[65], 0, 100, false⟩))) :=
  expect_any_fullbuffer_requested_errors gcFail [.fullBuffer]
    ⟨⟨[65], 0, 100, false⟩, none, false, 1⟩ [] (by decide) rfl
    (by simp) (by decide) (by decide)

/-- Counterexample to claim C3 as stated: with the buffer already at
`max_buffer_size = 2`, no concrete match, and `FullBuffer` *not*
registered, the full-buffer condition does not resolve to a typed error —
the check is skipped, the loop reads more data, and the call then
*succeeds* with a normal match. -/
theorem expect_any_fullbuffer_not_registered_cx :
    ((BufferManager.mk [65, 65] 0 100 false).len ≥ 2) ∧
    ([Pattern.exact [88]].any Pattern.isFullBuffer) = false ∧
    findFirstMatch (buildMatchers gcFail [.exact [88]]) [65, 65] = .ok none ∧
    Session.expect_any gcFail [.exact [88]]
        ⟨⟨[65, 65], 0, 100, false⟩, none, false, 2⟩ [(0, .data [88])] =
      some (.ok ⟨0, [88], 2, 3, [65, 65], []⟩) :=
  ⟨by decide, by decide, rfl, rfl⟩

/-- Claim C5, amended: in an `expect_any` call with a configured timeout,
once the elapsed time observed by the loop's timeout check is at least the
timeout (and no concrete pattern matches, and neither the EOF nor the
full-buffer resolution fires first): if `Timeout` is among the declared
patterns the call succeeds with an empty match (`pattern_index` is
`Timeout`'s first declared index, empty matched text, start = end = buffer
length), otherwise it fails with a timeout error carrying the *configured*
timeout duration (not the elapsed time — see the counterexample). -/
theorem expect_any_timeout_resolution
    (gc : List Nat → Except PatternError GlobMatcher)
    (ps : List Pattern) (st : SessionState) (elapsed T : Nat)
    (ev : ReadEvent) (rest : List (Nat × ReadEvent))
    (hwin : st.buffer.matched_position ≤ st.buffer.buffer.length)
    (hnomatch : findFirstMatch (buildMatchers gc ps)
        (st.buffer.buffer.drop st.buffer.matched_position) = .ok none)
    (hne : ¬(st.eof_reached = true ∧ ps.any Pattern.isEof = true))
    (hnf : ¬(st.max_buffer_size ≤ st.buffer.len ∧
        ps.any Pattern.isFullBuffer = true))
    (hT : st.timeout = some T) (helapsed : T ≤ elapsed) :
    Session.expect_any gc ps st ((elapsed, ev) :: rest) =
      some (if ps.any Pattern.isTimeout then
        .ok ⟨ps.findIdx Pattern.isTimeout, [], st.buffer.len, st.buffer.len,
          st.buffer.as_str, []⟩
        else .error (.timeout T)) := by
  have h1 : ¬((st.eof_reached && ps.any Pattern.isEof) = true) := by
    simp only [Bool.and_eq_true]
    exact hne
  have h2 : ¬((decide (st.max_buffer_size ≤ st.buffer.len) &&
      ps.any Pattern.isFullBuffer) = true) := by
    simp only [Bool.and_eq_true, decide_eq_true_eq]
    exact hnf
  have hscan : expectScan (buildMatchers gc ps) ps st = .readMore := by
    simp only [expectScan, unmatched?_eq_of_le hwin, hnomatch]
    rw [if_neg h1, if_neg h2]
  rw [Session.expect_any]
  simp only [expectLoop, hscan, hT]
  rw [if_pos helapsed]
  by_cases ht : ps.any Pattern.isTimeout = true
  · rw [if_pos ht, if_pos ht]
    rfl
  · rw [if_neg ht, if_neg ht]

/-- Witness for the amended C5, success side: patterns
`[exact "N", Timeout]`, configured timeout 5, elapsed 7 — the call succeeds
with the empty match at the buffer end, `pattern_index = 1`. -/
theorem expect_any_timeout_resolution_witness :
    Session.expect_any gcFail [.exact [78], .timeout]
        ⟨⟨[65], 0, 100, false⟩, some 5, false, 100⟩ [(7, .wouldBlock)] =
      some (if [Pattern.exact [78], Pattern.timeout].any Pattern.isTimeout then
        .ok ⟨[Pattern.exact [78], Pattern.timeout].findIdx Pattern.isTimeout,
          [], BufferManager.len ⟨[65], 0, 100, false⟩,
          BufferManager.len ⟨[65], 0, 100, false⟩,
          BufferManager.as_str ⟨[65], 0, 100, false⟩, []⟩
        else .error (.timeout 5)) :=
  expect_any_timeout_resolution gcFail [.exact [78], .timeout]
    ⟨⟨[65], 0, 100, false⟩, some 5, false, 100⟩ 7 5 .wouldBlock []
    (by decide) rfl (by decide) (by decide) rfl (by decide)

/-- Counterexample to claim C5 as stated: with configured timeout 5 and
elapsed time 7, the timeout error carries the configured duration 5, not
the elapsed duration 7 (`return Err(ExpectError::Timeout { duration:
timeout })` uses the configured value). -/
theorem expect_any_timeout_carries_configured_cx :
    Session.expect_any gcFail [.exact [78]]
        ⟨⟨[65], 0, 100, false⟩, some 5, false, 100⟩ [(7, .wouldBlock)] =
      some (.error (.timeout 5)) ∧
    (some (.error (.timeout 5)) : Option (Except ExpectError MatchResult)) ≠
      some (.error (.timeout 7)) :=
  ⟨rfl, by simp⟩

theorem buildMatchers_exact_pair
    (gc : List Nat → Except PatternError GlobMatcher)
    {a b : List Nat} (ha : a ≠ []) (hb : b ≠ []) :
    buildMatchers gc [.exact a, .exact b] =
      [(0, .exactM ⟨a, buildBadCharTable a⟩),
       (1, .exactM ⟨b, buildBadCharTable b⟩)] := by
  simp [buildMatchers, Pattern.isSpecial, Pattern.to_matcher,
    ExactMatcher.new, ha, hb, List.enum, List.enumFrom, Except.map]

/-- When the first declared matcher finds a match (in bounds), the scan
returns it with that matcher's declared index, whatever the later matchers
would find. -/
theorem expectScan_first_match {mA : Matcher} (i : Nat)
    (ms' : List (Nat × Matcher)) (ps : List Pattern) (st : SessionState)
    {W : List Nat} (hwin : st.buffer.unmatched? = some W)
    {mm : Match} (hfind : mA.find W = .ok (some mm))
    (hb1 : st.buffer.matched_position + mm.start ≤
      st.buffer.matched_position + mm.stop)
    (hb2 : st.buffer.matched_position + mm.stop ≤ st.buffer.buffer.length) :
    expectScan ((i, mA) :: ms') ps st = .out (some (.ok
      ⟨i,
       fromUtf8Lossy (listExtract st.buffer.buffer
         (st.buffer.matched_position + mm.start)
         (st.buffer.matched_position + mm.stop -
           (st.buffer.matched_position + mm.start))),
       st.buffer.matched_position + mm.start,
       st.buffer.matched_position + mm.stop,
       fromUtf8Lossy (st.buffer.before (st.buffer.matched_position + mm.start)),
       mm.captures⟩)) := by
  simp only [expectScan, hwin, findFirstMatch, hfind]
  rw [if_pos ⟨hb1, hb2⟩]

/-- Claim C2: with declared patterns `[exact a, exact b]` where `a`'s only
occurrence in the unmatched window starts at offset 10 and `b` occurs at
offset 2, `expect_any` returns `pattern_index = 0` with the match starting
at (absolute) offset boundary + 10: the winner is the pattern with the
lowest declared index, not the one whose match starts earliest. -/
theorem expect_any_declared_order_precedence
    (gc : List Nat → Except PatternError GlobMatcher)
    (a b : List Nat) (st : SessionState) (trace : List (Nat × ReadEvent))
    (ha : a ≠ []) (hb : b ≠ [])
    (ha256 : ∀ x ∈ a, x < 256)
    (hbuf256 : ∀ x ∈ st.buffer.buffer, x < 256)
    (hwin : st.buffer.matched_position ≤ st.buffer.buffer.length)
    (hA : occursAt a (st.buffer.buffer.drop st.buffer.matched_position) 10)
    (hAonly : ∀ s ∈ List.range
        (st.buffer.buffer.drop st.buffer.matched_position).length,
        occursAt a (st.buffer.buffer.drop st.buffer.matched_position) s →
          s = 10)
    (_hB : occursAt b (st.buffer.buffer.drop st.buffer.matched_position) 2) :
    (Session.expect_any gc [.exact a, .exact b] st trace).map
        (Except.map fun r => (r.pattern_index, r.start)) =
      some (.ok (0, st.buffer.matched_position + 10)) := by
  have haLen : 1 ≤ a.length := List.length_pos.mpr ha
  have hW256 : ∀ x ∈ st.buffer.buffer.drop st.buffer.matched_position,
      x < 256 := fun x hx => hbuf256 x (List.drop_subset _ _ hx)
  have hnewA : ExactMatcher.new a = .ok ⟨a, buildBadCharTable a⟩ := by
    rw [ExactMatcher.new, if_neg ha]
  have hspec := ExactMatcher_find_leftmost a
    (st.buffer.buffer.drop st.buffer.matched_position)
    ⟨a, buildBadCharTable a⟩ hnewA ha256 hW256
  rcases hfind : ExactMatcher.find ⟨a, buildBadCharTable a⟩
      (st.buffer.buffer.drop st.buffer.matched_position) with _ | mm
  · exact absurd hA (hspec.2 hfind 10)
  · obtain ⟨hocc, hstop, _⟩ := hspec.1 mm hfind
    have hlenW : (st.buffer.buffer.drop st.buffer.matched_position).length =
        st.buffer.buffer.length - st.buffer.matched_position :=
      List.length_drop _ _
    have hstart10 : mm.start = 10 :=
      hAonly mm.start (List.mem_range.mpr (by have := hocc.1; omega)) hocc
    have hoccLe := hocc.1
    have hstople : st.buffer.matched_position + mm.stop ≤
        st.buffer.buffer.length := by omega
    have hfindM : Matcher.find (.exactM ⟨a, buildBadCharTable a⟩)
        (st.buffer.buffer.drop st.buffer.matched_position) =
          .ok (some mm) := by
      simp only [Matcher.find, hfind]
    rw [Session.expect_any, buildMatchers_exact_pair gc ha hb,
      expectLoop_out trace (expectScan_first_match 0 _ _ _
        (unmatched?_eq_of_le hwin) hfindM (by omega) hstople)]
    simp only [Option.map_some', Except.map]
    rw [hstart10]

/-- Witness for C2: `a = "XY"` occurring only at offset 10, `b = "b"`
occurring at offset 2, in the 12-byte buffer `"01b3456789XY"` — the result
has `pattern_index = 0` and `start = 10`. -/
theorem expect_any_declared_order_precedence_witness :
    (Session.expect_any gcFail [.exact [88, 89], .exact [98]]
        ⟨⟨[48, 49, 98, 51, 52, 53, 54, 55, 56, 57, 88, 89], 0, 1024, false⟩,
          none, false, 1024⟩ []).map
        (Except.map fun r => (r.pattern_index, r.start)) =
      some (.ok (0, 0 + 10)) :=
  expect_any_declared_order_precedence gcFail [88, 89] [98]
    ⟨⟨[48, 49, 98, 51, 52, 53, 54, 55, 56, 57, 88, 89], 0, 1024, false⟩,
      none, false, 1024⟩ []
    (by decide) (by decide) (by decide) (by decide) (by decide) (by decide)
    (by decide) (by decide)

theorem expectScan_no_patternErr (ms : List (Nat × Matcher))
    (ps : List Pattern) (st : SessionState)
    (r : Except ExpectError MatchResult)
    (h : expectScan ms ps st = .out (some r)) :
    ∀ e, r ≠ .error (.patternErr e) := by
  intro e
  rcases hu : st.buffer.unmatched? with _ | W
  · simp only [expectScan, hu] at h
    simp at h
  · rcases hf : findFirstMatch ms W with e' | om
    · simp only [expectScan, hu, hf] at h
      simp at h
    · rcases om with _ | im
      · simp only [expectScan, hu, hf] at h
        split_ifs at h with h1 h2
        · simp only [ScanResult.out.injEq, Option.some.injEq] at h
          subst h
          simp
        · simp only [ScanResult.out.injEq, Option.some.injEq] at h
          subst h
          simp
      · simp only [expectScan, hu, hf] at h
        split_ifs at h with h1
        · simp only [ScanResult.out.injEq, Option.some.injEq] at h
          subst h
          simp
        · simp at h

theorem handleRead_no_patternErr (ps : List Pattern) (st : SessionState)
    (ev : ReadEvent) (r : Except ExpectError MatchResult)
    (h : handleRead ps st ev = .out (some r)) :
    ∀ e, r ≠ .error (.patternErr e) := by
  intro e
  cases ev with
  | data bytes =>
    simp only [handleRead] at h
    split_ifs at h with h1 h2
    · simp only [ReadStep.out.injEq, Option.some.injEq] at h
      subst h
      simp
    · rcases ha : st.buffer.appendR bytes with e' | bm'
      · rw [ha] at h
        simp only [ReadStep.out.injEq, Option.some.injEq] at h
        subst h
        simp
      · rw [ha] at h
        simp at h
  | wouldBlock => simp [handleRead] at h
  | timedOut =>
    simp only [handleRead, ReadStep.out.injEq, Option.some.injEq] at h
    subst h
    split_ifs with h1
    · simp
    · cases st.timeout <;> simp
  | ioError =>
    simp only [handleRead, ReadStep.out.injEq, Option.some.injEq] at h
    subst h
    simp

theorem expectLoop_no_patternErr :
    ∀ (trace : List (Nat × ReadEvent)) (ms : List (Nat × Matcher))
      (ps : List Pattern) (st : SessionState)
      (r : Except ExpectError MatchResult),
      expectLoop ms ps trace st = some r →
      ∀ e, r ≠ .error (.patternErr e) := by
  intro trace
  induction trace with
  | nil =>
    intro ms ps st r h e
    rcases hs : expectScan ms ps st with r' | _
    · have hl : expectLoop ms ps [] st = r' := expectLoop_out [] hs
      rw [h] at hl
      rw [← hl] at hs
      exact expectScan_no_patternErr ms ps st r hs e
    · have hl : expectLoop ms ps [] st = none := by
        simp only [expectLoop, hs]
      rw [h] at hl
      exact Option.noConfusion hl
  | cons p rest ih =>
    intro ms ps st r h e
    rcases p with ⟨elapsed, ev⟩
    rcases hs : expectScan ms ps st with r' | _
    · have hl : expectLoop ms ps ((elapsed, ev) :: rest) st = r' :=
        expectLoop_out ((elapsed, ev) :: rest) hs
      rw [h] at hl
      rw [← hl] at hs
      exact expectScan_no_patternErr ms ps st r hs e
    · rcases hT : st.timeout with _ | t
      · rcases hr : handleRead ps st ev with r'' | st'
        · have hl : expectLoop ms ps ((elapsed, ev) :: rest) st = r'' := by
            simp only [expectLoop, hs, hT, hr]
          rw [h] at hl
          subst hl
          exact handleRead_no_patternErr ps st ev r hr e
        · have hl : expectLoop ms ps ((elapsed, ev) :: rest) st =
              expectLoop ms ps rest st' := by
            simp only [expectLoop, hs, hT, hr]
          rw [h] at hl
          exact ih ms ps st' r hl.symm e
      · by_cases h1 : t ≤ elapsed
        · have hl : expectLoop ms ps ((elapsed, ev) :: rest) st =
              some (if ps.any Pattern.isTimeout then
                .ok (timeoutSuccess ps st) else .error (.timeout t)) := by
            simp only [expectLoop, hs, hT]
            rw [if_pos h1]
          rw [h] at hl
          have hre := Option.some.inj hl
          subst hre
          split_ifs with h2
          · simp
          · simp
        · rcases hr : handleRead ps st ev with r'' | st'
          · have hl : expectLoop ms ps ((elapsed, ev) :: rest) st = r'' := by
              simp only [expectLoop, hs, hT, hr]
              rw [if_neg h1]
            rw [h] at hl
            subst hl
            exact handleRead_no_patternErr ps st ev r hr e
          · have hl : expectLoop ms ps ((elapsed, ev) :: rest) st =
                expectLoop ms ps rest st' := by
              simp only [expectLoop, hs, hT, hr]
              rw [if_neg h1]
            rw [h] at hl
            exact ih ms ps st' r hl.symm e

/-- Claim C7: `Pattern::exact("")` constructs a `Pattern` (it is just the
`Exact` variant, so nothing to prove beyond its use below); converting it
with `to_matcher` fails with `EmptyPattern`; every matcher the expect loop
evaluates comes from a pattern whose `to_matcher` succeeded (failed
constructions are silently skipped, so such a pattern can never win); and
no `expect_any` outcome is ever a pattern-construction error. -/
theorem pattern_construction_errors_only_at_build :
    (∀ gc, Pattern.to_matcher gc (.exact []) = .error .emptyPattern) ∧
    (∀ (gc : List Nat → Except PatternError GlobMatcher) (ps : List Pattern)
        (i : Nat) (m : Matcher), (i, m) ∈ buildMatchers gc ps →
        ∃ p', ps[i]? = some p' ∧ p'.to_matcher gc = .ok m) ∧
    (∀ (gc : List Nat → Except PatternError GlobMatcher) (ps : List Pattern)
        (st : SessionState) (trace : List (Nat × ReadEvent))
        (r : Except ExpectError MatchResult),
        Session.expect_any gc ps st trace = some r →
        ∀ e, r ≠ .error (.patternErr e)) := by
  refine ⟨fun gc => rfl, ?_, ?_⟩
  · intro gc ps i m hmem
    unfold buildMatchers at hmem
    rw [List.mem_filterMap] at hmem
    obtain ⟨⟨j, p⟩, hjp, hf⟩ := hmem
    have hget : ps[j]? = some p := List.mk_mem_enum_iff_getElem?.mp hjp
    by_cases hsp : p.isSpecial = true
    · simp [hsp] at hf
    · simp only [hsp] at hf
      rw [if_neg (by simp [hsp])] at hf
      rcases htm : p.to_matcher gc with e1 | mm
      · rw [htm] at hf
        simp at hf
      · rw [htm] at hf
        simp only [Option.some.injEq, Prod.mk.injEq] at hf
        obtain ⟨hji, hmm⟩ := hf
        exact ⟨p, hji ▸ hget, hmm ▸ htm⟩
  · intro gc ps st trace r h e
    exact expectLoop_no_patternErr trace (buildMatchers gc ps) ps st r h e

/-- Witness for C7: `to_matcher` on `exact("")` fails with `EmptyPattern`
at build time, while a concrete `expect_any` call that returns (here: with
`FullBuffer`, failing with `FullBuffer{1}`) never returns a
pattern-construction error. -/
theorem pattern_construction_errors_only_at_build_witness :
    Pattern.to_matcher gcFail (.exact []) = .error .emptyPattern ∧
    (Except.error (.fullBuffer 1) : Except ExpectError MatchResult) ≠
      .error (.patternErr .emptyPattern) :=
  ⟨pattern_construction_errors_only_at_build.1 gcFail,
   pattern_construction_errors_only_at_build.2.2 gcFail
     [.exact [], .fullBuffer] ⟨⟨[65], 0, 100, false⟩, none, false, 1⟩ []
     (.error (.fullBuffer 1)) rfl .emptyPattern⟩

/-- Claim C8 (the code bug it pins down): `GlobMatcher::find` iterates
*byte* offsets of the decoded string and slices `&text[start..end]`
without checking character boundaries, so on any buffer whose first
character is multi-byte (here `"é"`, bytes `[0xC3, 0xA9]`) the very first
candidate slice `&text[0..1]` panics instead of scanning substrings —
whatever the compiled glob is. -/
theorem glob_find_panics_on_multibyte (g : GlobMatcher) :
    GlobMatcher.find g [195, 169] = .error () := rfl

end ExpectRust
